import Mathlib

/-!
Shallow embedding of the AITester strategy evaluation and ranking pipeline
(src/strategy_backtest.py, src/build_dashboard.py, src/top_performers_analysis.py,
verify_methodology.py), together with theorems settling the specification claims.

Prices, returns and statistics are modelled as exact rationals (ℚ); pandas/NumPy
missing values (NaN / None) are modelled as `Option` values; a Python function
that may raise is modelled as returning `Option` (with `none` for the raised
case caught by a surrounding `try/except`).  External library calls (yfinance
downloads, pandas-ta indicator columns, vectorbt crossover outputs, trade
records) are inputs of the embedded functions; the repository's own logic that
consumes them is translated line by line.
-/

namespace AITester

/-! ## Generic stable descending selection (pandas `nlargest` / `sort_values`)

pandas `nlargest(n, col)` with the default `keep='first'` is equivalent to a
stable descending sort by the column followed by `take n`.  We model it by
decorating each row with its input position (`List.enum`), sorting by the
strict total order "larger key first, earlier input position first on ties",
and projecting back.  `sort_values(ascending=False)` with NaN placed last is
modelled the same way with an `Option ℚ` key. -/

/-- Boolean ordering on decorated rows: defined keys sort before `none`
(pandas puts NaN last), larger keys first, ties broken by input position. -/
def keyRelB {α : Type} (k : α → Option ℚ) (p q : ℕ × α) : Bool :=
  match k p.2, k q.2 with
  | some a, some b => decide (b < a) || (decide (a = b) && decide (p.1 ≤ q.1))
  | some _, none => true
  | none, some _ => false
  | none, none => decide (p.1 ≤ q.1)

/-- Propositional form of `keyRelB`, used with `List.insertionSort`. -/
def keyRel {α : Type} (k : α → Option ℚ) (p q : ℕ × α) : Prop :=
  keyRelB k p q = true

instance {α : Type} (k : α → Option ℚ) : DecidableRel (keyRel k) := by
  intro p q
  unfold keyRel
  infer_instance

instance keyRel_total {α : Type} (k : α → Option ℚ) : IsTotal (ℕ × α) (keyRel k) := by
  constructor
  intro p q
  unfold keyRel keyRelB
  rcases hp : k p.2 with _ | a <;> rcases hq : k q.2 with _ | b <;> simp
  · exact Nat.le_total p.1 q.1
  · rcases lt_trichotomy a b with h | h | h
    · exact Or.inr (Or.inl h)
    · rcases Nat.le_total p.1 q.1 with h' | h'
      · exact Or.inl (Or.inr ⟨h, h'⟩)
      · exact Or.inr (Or.inr ⟨h.symm, h'⟩)
    · exact Or.inl (Or.inl h)

instance keyRel_trans {α : Type} (k : α → Option ℚ) : IsTrans (ℕ × α) (keyRel k) := by
  constructor
  intro p q r hpq hqr
  unfold keyRel keyRelB at *
  rcases hp : k p.2 with _ | a <;> rcases hq : k q.2 with _ | b <;>
    rcases hr : k r.2 with _ | c <;>
    simp only [hp, hq, hr] at hpq hqr ⊢ <;> simp_all
  · exact le_trans hpq hqr
  · rcases hpq with h | ⟨he, hi⟩
    · rcases hqr with h' | ⟨he', hi'⟩
      · exact Or.inl (lt_trans h' h)
      · exact Or.inl (he' ▸ h)
    · rcases hqr with h' | ⟨he', hi'⟩
      · exact Or.inl (he ▸ h')
      · exact Or.inr ⟨he.trans he', le_trans hi hi'⟩

/-- Stable descending sort of the decorated (input-position, row) pairs. -/
def sortedEnum {α : Type} (k : α → Option ℚ) (l : List α) : List (ℕ × α) :=
  List.insertionSort (keyRel k) l.enum

/-- `nlargest n` by key `k` (pandas semantics, `keep='first'`). -/
def nlargestBy {α : Type} (k : α → Option ℚ) (n : ℕ) (l : List α) : List α :=
  ((sortedEnum k l).take n).map Prod.snd

/-- Full descending sort by key `k` (pandas `sort_values(ascending=False)`,
NaN last, ties by input order). -/
def sortDescBy {α : Type} (k : α → Option ℚ) (l : List α) : List α :=
  (sortedEnum k l).map Prod.snd

theorem sortedEnum_perm {α : Type} (k : α → Option ℚ) (l : List α) :
    List.Perm (sortedEnum k l) l.enum :=
  List.perm_insertionSort _ _

theorem sortedEnum_sorted {α : Type} (k : α → Option ℚ) (l : List α) :
    List.Sorted (keyRel k) (sortedEnum k l) :=
  List.sorted_insertionSort _ _

theorem sortDescBy_perm {α : Type} (k : α → Option ℚ) (l : List α) :
    List.Perm (sortDescBy k l) l := by
  have h := (sortedEnum_perm k l).map Prod.snd
  simpa [sortDescBy] using h

theorem sortedEnum_nodup_fst {α : Type} (k : α → Option ℚ) (l : List α) :
    (List.map Prod.fst (sortedEnum k l)).Nodup := by
  have hperm : List.Perm (List.map Prod.fst (sortedEnum k l)) (List.map Prod.fst l.enum) :=
    (sortedEnum_perm k l).map Prod.fst
  exact hperm.nodup_iff.mpr (List.nodup_enum_map_fst l)

/-! ## strategy_backtest.py — configuration constants -/

/-- `INITIAL_CASH = 10_000` -/
def INITIAL_CASH : ℚ := 10000

/-- `COMMISSION = 0.002` -/
def COMMISSION : ℚ := 0.002

/-- `SIZE_PERCENT = 1` -/
def SIZE_PERCENT : ℚ := 1

/-! ## strategy_backtest.py — portfolio simulation (`vbt.Portfolio.from_signals`)

The three strategy portfolios are produced by `vbt.Portfolio.from_signals`
with percent sizing.  We embed the long-only percent-sizing state machine:
FLAT → LONG on an entry signal, LONG → FLAT on an exit signal, exit taking
precedence at a simultaneous entry+exit; each fill of value `V` pays a
commission of `V * fees`.  The per-call keyword arguments of the three
`from_signals` call sites are recorded in `SimCfg` values below. -/

structure SimCfg where
  initCash : ℚ
  fees : ℚ
  size : ℚ
deriving DecidableEq

/-- `from_signals` call for the weekly Trend strategy (strategy_backtest.py
lines 296–303): `init_cash=INITIAL_CASH, size=SIZE_PERCENT, fees=COMMISSION,
size_type="percent"`. -/
def trendCfg : SimCfg := { initCash := INITIAL_CASH, fees := COMMISSION, size := SIZE_PERCENT }

/-- `from_signals` call for the High_Vol strategy (lines 328–337):
`init_cash=INITIAL_CASH, fees=COMMISSION, size=SIZE_PERCENT, size_type="percent"`. -/
def highVolCfg : SimCfg := { initCash := INITIAL_CASH, fees := COMMISSION, size := SIZE_PERCENT }

/-- `from_signals` call for the Low_Vol strategy (lines 339–347):
`init_cash=INITIAL_CASH, size=SIZE_PERCENT, size_type="percent"` and **no
`fees` argument**, so vectorbt's default commission of 0 applies. -/
def lowVolCfg : SimCfg := { initCash := INITIAL_CASH, fees := 0, size := SIZE_PERCENT }

/-- One simulated bar: close price and the entry/exit signal pair. -/
structure Bar where
  price : ℚ
  entry : Bool
  exits : Bool

/-- One executed order: traded value and the commission charged on it. -/
structure Fill where
  value : ℚ
  fee : ℚ
  buy : Bool
deriving DecidableEq

/-- One bar of the long-only percent-sizing state machine.  State is
`(cash, shares)`.  A buy spends the `size` fraction of current cash (equity,
since the position is flat), commission included; a sell liquidates the whole
position and pays commission on the proceeds. -/
def simStep (cfg : SimCfg) (st : ℚ × ℚ) (b : Bar) : (ℚ × ℚ) × Option Fill :=
  if 0 < st.2 then
    if b.exits then
      ((st.1 + st.2 * b.price - st.2 * b.price * cfg.fees, 0),
       some ⟨st.2 * b.price, st.2 * b.price * cfg.fees, false⟩)
    else (st, none)
  else
    if b.entry && !b.exits then
      ((st.1 - cfg.size * st.1 / (1 + cfg.fees) - cfg.size * st.1 / (1 + cfg.fees) * cfg.fees,
        cfg.size * st.1 / (1 + cfg.fees) / b.price),
       some ⟨cfg.size * st.1 / (1 + cfg.fees), cfg.size * st.1 / (1 + cfg.fees) * cfg.fees, true⟩)
    else (st, none)

/-- Replay a bar list from a given state, collecting the fill log. -/
def simRun (cfg : SimCfg) : ℚ × ℚ → List Bar → (ℚ × ℚ) × List Fill
  | st, [] => (st, [])
  | st, b :: bs =>
    let s1 := simStep cfg st b
    let s2 := simRun cfg s1.1 bs
    (s2.1, s1.2.toList ++ s2.2)

/-- Simulate a signal set from the configured initial cash. -/
def simulate (cfg : SimCfg) (bars : List Bar) : (ℚ × ℚ) × List Fill :=
  simRun cfg (cfg.initCash, 0) bars

/-! ## strategy_backtest.py — `download_weekly` -/

/-- One row of the provider's daily OHLCV frame.  `date` is an ordinal trading
day, `week` the calendar week the `resample("W")` bucketing assigns it to;
value fields are `Option` because individual cells can be NaN. -/
structure DailyRow where
  date : ℕ
  week : ℤ
  openP : Option ℚ
  highP : Option ℚ
  lowP : Option ℚ
  closeP : Option ℚ
  volP : Option ℚ
deriving DecidableEq

/-- The provider result: the column list (for the required-columns check) and
the data rows.  An empty `rows` models `df.empty`. -/
structure DailyData where
  cols : List String
  rows : List DailyRow
deriving DecidableEq

/-- Python `str.title()` on a column name: an alphabetic character is
uppercased when it follows a non-alphabetic one and lowercased otherwise. -/
def titleChars : List Char → Bool → List Char
  | [], _ => []
  | ch :: cs, prevAlpha =>
    if ch.isAlpha then
      (if prevAlpha then ch.toLower else ch.toUpper) :: titleChars cs true
    else ch :: titleChars cs false

/-- `c.title()` from the rename `df.rename(columns={c: c.title() ...})`. -/
def titleCase (s : String) : String := ⟨titleChars s.data false⟩

/-- `required = {"Open","High","Low","Close","Volume"}` -/
def requiredCols : List String := ["Open", "High", "Low", "Close", "Volume"]

/-- pandas `first` aggregation: first non-null value of the group. -/
def firstSome (l : List (Option ℚ)) : Option ℚ := (l.filterMap id).head?

/-- pandas `last` aggregation: last non-null value of the group. -/
def lastSome (l : List (Option ℚ)) : Option ℚ := (l.filterMap id).getLast?

/-- pandas `max` aggregation: maximum of the non-null values. -/
def maxSome (l : List (Option ℚ)) : Option ℚ := (l.filterMap id).max?

/-- pandas `min` aggregation: minimum of the non-null values. -/
def minSome (l : List (Option ℚ)) : Option ℚ := (l.filterMap id).min?

/-- pandas `sum` aggregation: sum of the non-null values (0 if all null). -/
def sumSome (l : List (Option ℚ)) : ℚ := (l.filterMap id).sum

/-- One aggregated weekly bar, after `dropna()`. -/
structure WeeklyRow where
  week : ℤ
  openP : ℚ
  highP : ℚ
  lowP : ℚ
  closeP : ℚ
  volP : ℚ
deriving DecidableEq

/-- `resample("W")` buckets: since daily timestamps are strictly increasing,
rows of one calendar week form a maximal adjacent run. -/
def weekGroups (rows : List DailyRow) : List (List DailyRow) :=
  rows.splitBy (fun a b => a.week == b.week)

/-- Aggregate one calendar-week group with the
`.agg({"Open":"first","High":"max","Low":"min","Close":"last","Volume":"sum"})`
dictionary; `none` when the aggregated row still contains a null (such a row
is removed by the subsequent `dropna()`). -/
def aggGroup (grp : List DailyRow) : Option WeeklyRow :=
  match grp.head? with
  | none => none
  | some r0 =>
    match firstSome (grp.map (·.openP)), maxSome (grp.map (·.highP)),
          minSome (grp.map (·.lowP)), lastSome (grp.map (·.closeP)) with
    | some o, some h, some l, some c =>
      some ⟨r0.week, o, h, l, c, sumSome (grp.map (·.volP))⟩
    | _, _, _, _ => none

/-- The `.agg(...).dropna()` step: aggregate each calendar-week group and drop
every aggregated row that still contains a null. -/
def resampleWeekly (rows : List DailyRow) : List WeeklyRow :=
  (weekGroups rows).filterMap aggGroup

/-- `download_weekly` (strategy_backtest.py lines 248–267), applied to the
provider result: `None` when the frame is empty or, after title-casing the
column names, a required column is missing; otherwise the weekly resample. -/
def download_weekly (df : DailyData) : Option (List WeeklyRow) :=
  if df.rows.isEmpty then none
  else if requiredCols.all (fun c => (df.cols.map titleCase).contains c) then
    some (resampleWeekly df.rows)
  else none

/-! ## strategy_backtest.py — main-loop start date and per-ticker rows -/

/-- The first-trade-date synchronization of the main loop (lines 381–397):
drop `None` first-trade dates, take the minimum, and if it is not a member of
the daily index advance it to the first index entry `≥` it (skipping the
ticker when none exists). -/
def computeStart (firstDates : List (Option ℕ)) (index : List ℕ) : Option ℕ :=
  match (firstDates.filterMap id).min? with
  | none => none
  | some m =>
    if m ∈ index then some m
    else (index.filter (fun d => m ≤ d)).head?

/-- One row of the summary table (`{"Ticker": t, "Strategy": strat, ...}`);
the metric payload is irrelevant to the row-count claims. -/
structure ResultRow where
  ticker : String
  strategy : String
deriving DecidableEq

/-- External inputs consumed by one iteration of the per-ticker loop: the two
provider downloads (`download_weekly` and the daily fetch inside
`build_daily_volatility_strategies`) and the three `get_first_trade_date`
results for the Trend, High_Vol and Low_Vol portfolios. -/
structure TickerInput where
  weeklyFetch : DailyData
  dailyFetch : DailyData
  firstTradeDates : List (Option ℕ)
deriving DecidableEq

/-- One iteration of the main per-ticker loop (lines 362–417) restricted to
its control flow: skip (no rows) when `download_weekly` fails, when the daily
frame is empty, when no strategy has a first trade, or when the synchronized
start date cannot be advanced into the daily index; otherwise append the four
result rows. -/
def processTicker (t : String) (inp : TickerInput) : List ResultRow :=
  match download_weekly inp.weeklyFetch with
  | none => []
  | some _ =>
    if inp.dailyFetch.rows.isEmpty then []
    else
      match computeStart inp.firstTradeDates (inp.dailyFetch.rows.map (·.date)) with
      | none => []
      | some _ => [⟨t, "Trend"⟩, ⟨t, "High_Vol"⟩, ⟨t, "Low_Vol"⟩, ⟨t, "Benchmark"⟩]

/-- The summary table (lines 560–568): concatenation of the per-ticker rows
in universe order. -/
def resultsTable (inputs : List (String × TickerInput)) : List ResultRow :=
  (inputs.map (fun p => processTicker p.1 p.2)).flatten

/-! ## strategy_backtest.py — `build_weekly_trend_strategy` signals

The indicator columns (`ta.donchian` upper band, `ta.supertrend` line and
direction, `ta.ema`) are third-party library outputs and enter the embedding
as series arguments; the boolean signal combination of lines 285–294 is
translated directly.  A pandas comparison with NaN on either side is `False`,
and the code additionally applies `.fillna(False)`. -/

/-- Pandas `a > b` on possibly-NaN cells: false unless both are present. -/
def optGT (a b : Option ℚ) : Bool :=
  match a, b with
  | some x, some y => decide (y < x)
  | _, _ => false

/-- Pandas `a < b` on possibly-NaN cells: false unless both are present. -/
def optLT (a b : Option ℚ) : Bool :=
  match a, b with
  | some x, some y => decide (x < y)
  | _, _ => false

/-- `series.shift(1)`: the previous bar's value, NaN at the first bar. -/
def shift1 (f : ℕ → Option ℚ) : ℕ → Option ℚ
  | 0 => none
  | t + 1 => f t

/-- Indicator parameters as passed at the call sites of
`build_weekly_trend_strategy` (lines 275–283). -/
structure TrendParams where
  donchianUpper : ℕ
  donchianLower : ℕ
  superLen : ℕ
  superMult : ℚ
  emaFast : ℕ
  emaSlow : ℕ
deriving DecidableEq

/-- `ta.donchian(..., upper_length=10, lower_length=10)`,
`ta.supertrend(..., length=20, multiplier=1.0)`, `ta.ema(close, length=21)`,
`ta.ema(close, length=50)`. -/
def trendParams : TrendParams :=
  { donchianUpper := 10, donchianLower := 10, superLen := 20, superMult := 1,
    emaFast := 21, emaSlow := 50 }

/-- The weekly indicator columns consumed by the trend signals: close, the
Donchian upper band `DCU_10_10`, the supertrend line `SUPERT_20_1.0` and
direction `SUPERTd_20_1.0`, and the two EMAs. -/
structure TrendSeries where
  close : ℕ → Option ℚ
  upper : ℕ → Option ℚ
  stLine : ℕ → Option ℚ
  stDir : ℕ → Option ℤ
  ema21 : ℕ → Option ℚ
  ema50 : ℕ → Option ℚ

/-- `entries = ((close > upper.shift(1)) & (st_dir == 1) & (ema21 > ema50)).fillna(False)` -/
def trendEntries (s : TrendSeries) (t : ℕ) : Bool :=
  optGT (s.close t) (shift1 s.upper t) && (s.stDir t == some 1) && optGT (s.ema21 t) (s.ema50 t)

/-- `exits = ((close < st_line) & (st_dir == -1)).fillna(False)` -/
def trendExits (s : TrendSeries) (t : ℕ) : Bool :=
  optLT (s.close t) (s.stLine t) && (s.stDir t == some (-1))

/-! ## strategy_backtest.py — `build_daily_volatility_strategies` signals -/

/-- `fast.vbt.crossed_above(slow)` at a daily timestamp: the fast value was
`≤` the slow value on the previous bar and exceeds it on the current bar;
any NaN involved gives no signal. -/
def crossedAbove (fast slow : ℕ → Option ℚ) : ℕ → Bool
  | 0 => false
  | t + 1 =>
    match fast t, slow t, fast (t + 1), slow (t + 1) with
    | some fp, some sp, some fc, some sc => decide (fp ≤ sp) && decide (sc < fc)
    | _, _, _, _ => false

/-- `fast.vbt.crossed_below(slow)`: the mirrored crossunder. -/
def crossedBelow (fast slow : ℕ → Option ℚ) : ℕ → Bool
  | 0 => false
  | t + 1 =>
    match fast t, slow t, fast (t + 1), slow (t + 1) with
    | some fp, some sp, some fc, some sc => decide (sp ≤ fp) && decide (fc < sc)
    | _, _, _, _ => false

/-- `weekly_supertrend_dir.reindex(close.index, method="ffill").fillna(0)`
evaluated at daily date `t`: the last weekly value on or before `t`,
defaulting to 0 before the first weekly observation.  `w` is the weekly
(date, direction) series in chronological order. -/
def alignFfill (w : List (ℕ × ℤ)) (t : ℕ) : ℤ :=
  match (w.filter (fun p => p.1 ≤ t)).getLast? with
  | some p => p.2
  | none => 0

/-- `(st_daily == -1)`: the forward-filled weekly trend direction is bearish. -/
def bearGate (w : List (ℕ × ℤ)) (t : ℕ) : Bool := alignFfill w t == -1

/-- High_Vol portfolio entry signal: `entries & (st_daily == -1)` (line 330). -/
def highVolEntry (entries : ℕ → Bool) (w : List (ℕ × ℤ)) (t : ℕ) : Bool :=
  entries t && bearGate w t

/-- High_Vol portfolio exit signal: `exits` (line 331), not trend-gated. -/
def highVolExit (exits : ℕ → Bool) (t : ℕ) : Bool := exits t

/-- Low_Vol portfolio entry signal: `exits & (st_daily == -1)` (line 341). -/
def lowVolEntry (exits : ℕ → Bool) (w : List (ℕ × ℤ)) (t : ℕ) : Bool :=
  exits t && bearGate w t

/-- Low_Vol portfolio exit signal: `entries` (line 342), not trend-gated. -/
def lowVolExit (entries : ℕ → Bool) (t : ℕ) : Bool := entries t

/-! ## strategy_backtest.py — `get_extended_stats`

`pf.stats(...)` (base metrics), the index span and `pf.trades.records_readable`
are vectorbt outputs and enter as arguments: `base = none` models the outer
`except` (the stats call raised), `durationDays = none` the inner duration
`except`, `tradesRaised = true` the trade-block `except`, `trades = none` a
`records_readable` that is Python `None`.  The real exponentiation
`(1 + r) ** (1 / years)` is a float operation and enters as the abstract
function `powQ`. -/

structure BaseStats where
  totalReturn : Option ℚ
  maxDD : Option ℚ
  sharpe : Option ℚ
  sortino : Option ℚ
  calmar : Option ℚ
deriving DecidableEq

structure Trade where
  pnl : ℚ
  ret : ℚ
deriving DecidableEq

/-- `pf.trades.records_readable`: the rows plus whether a `Return` column is
present. -/
structure TradeTable where
  hasReturnCol : Bool
  rows : List Trade
deriving DecidableEq

structure ExtStats where
  totalReturn : Option ℚ
  annualizedReturn : Option ℚ
  maxDD : Option ℚ
  sharpe : Option ℚ
  sortino : Option ℚ
  calmar : Option ℚ
  totalTrades : Option ℕ
  winRate : Option ℚ
  avgWinningTrade : Option ℚ
  avgLosingTrade : Option ℚ
  profitFactor : Option ℚ
  bestReturn : Option ℚ
  worstReturn : Option ℚ
deriving DecidableEq

/-- `series.mean()` of a nonempty list. -/
def listMean (l : List ℚ) : ℚ := l.sum / l.length

/-- The `ExtStats` value with every metric missing (outer `except`). -/
def allNoneStats : ExtStats :=
  ⟨none, none, none, none, none, none, none, none, none, none, none, none, none⟩

/-- The seven trade metrics when there are no trades (the `else` block at
lines 197–205): a real count of 0 trades, everything else missing. -/
def noTradeBlock : Option ℕ × (Option ℚ × Option ℚ × Option ℚ × Option ℚ × Option ℚ × Option ℚ) :=
  (some 0, (none, none, none, none, none, none))

/-- The trade-statistics block for a nonempty trade table (lines 166–196). -/
def tradeBlock (tt : TradeTable) :
    Option ℕ × (Option ℚ × Option ℚ × Option ℚ × Option ℚ × Option ℚ × Option ℚ) :=
  let rows := tt.rows
  let wins := rows.filter (fun tr => 0 < tr.pnl)
  let winRate : Option ℚ :=
    if 0 < rows.length then some ((wins.length : ℚ) / (rows.length : ℚ) * 100) else some 0
  let avgWin : Option ℚ :=
    if 0 < wins.length then
      (if tt.hasReturnCol then some (listMean (wins.map (·.ret)) * 100) else none)
    else none
  let losses := rows.filter (fun tr => tr.pnl < 0)
  let avgLoss : Option ℚ :=
    if 0 < losses.length then
      (if tt.hasReturnCol then some (listMean (losses.map (·.ret)) * 100) else none)
    else none
  let totalWins : ℚ := if 0 < wins.length then (wins.map (·.pnl)).sum else 0
  let totalLosses : ℚ := if 0 < losses.length then |(losses.map (·.pnl)).sum| else 0
  let pFactor : Option ℚ := if 0 < totalLosses then some (totalWins / totalLosses) else none
  let best : Option ℚ :=
    if tt.hasReturnCol then ((rows.map (·.ret)).max?).map (· * 100) else none
  let worst : Option ℚ :=
    if tt.hasReturnCol then ((rows.map (·.ret)).min?).map (· * 100) else none
  (some rows.length, (winRate, avgWin, avgLoss, pFactor, best, worst))

/-- The annualized-return computation (lines 151–161): compound the total
return over the elapsed years, missing when the total return is missing, the
index span could not be read, or the elapsed time is not positive. -/
def annualizedReturnCalc (powQ : ℚ → ℚ → ℚ) (totalReturn : Option ℚ)
    (durationDays : Option ℤ) : Option ℚ :=
  match totalReturn, durationDays with
  | some tr, some d =>
    let years : ℚ := (d : ℚ) / (365.25 : ℚ)
    if 0 < years then some ((powQ (1 + tr / 100) (1 / years) - 1) * 100) else none
  | _, _ => none

/-- `get_extended_stats` (lines 134–220). -/
def get_extended_stats (powQ : ℚ → ℚ → ℚ) (base : Option BaseStats)
    (durationDays : Option ℤ) (tradesRaised : Bool) (trades : Option TradeTable) :
    ExtStats :=
  match base with
  | none => allNoneStats
  | some bs =>
    let annualized : Option ℚ := annualizedReturnCalc powQ bs.totalReturn durationDays
    let tb :=
      if tradesRaised then (none, (none, none, none, none, none, none))
      else
        match trades with
        | some tt => if 0 < tt.rows.length then tradeBlock tt else noTradeBlock
        | none => noTradeBlock
    { totalReturn := bs.totalReturn
      annualizedReturn := annualized
      maxDD := bs.maxDD
      sharpe := bs.sharpe
      sortino := bs.sortino
      calmar := bs.calmar
      totalTrades := tb.1
      winRate := tb.2.1
      avgWinningTrade := tb.2.2.1
      avgLosingTrade := tb.2.2.2.1
      profitFactor := tb.2.2.2.2.1
      bestReturn := tb.2.2.2.2.2.1
      worstReturn := tb.2.2.2.2.2.2 }

/-! ## build_dashboard.py — outperformer ranking

Reads `results/strategy_metrics.csv`, drops rows with missing return or
Sharpe, joins each row to its ticker's Benchmark return (defaulting to 0 when
the ticker has no Benchmark row), keeps the strategies that beat the market
and ranks the top 20 by total return. -/

/-- One CSV row of `results/strategy_metrics.csv` as read by the dashboards;
only the columns the ranking logic touches are modelled. -/
structure MetricsRow where
  ticker : String
  strategy : String
  totalReturn : Option ℚ
  sharpe : Option ℚ
  maxDD : Option ℚ
deriving DecidableEq

/-- A row surviving `df.dropna(subset=['Total Return [%]', 'Sharpe Ratio'])`. -/
structure CleanRow where
  ticker : String
  strategy : String
  ret : ℚ
  sharpe : ℚ
  maxDD : Option ℚ
deriving DecidableEq

/-- The `dropna` step. -/
def cleanRows (rows : List MetricsRow) : List CleanRow :=
  rows.filterMap fun r =>
    match r.totalReturn, r.sharpe with
    | some a, some b => some ⟨r.ticker, r.strategy, a, b, r.maxDD⟩
    | _, _ => none

/-- `benchmark_returns.get(row['Ticker'], 0)`: the Benchmark row's total
return for the ticker, 0 when the ticker has no Benchmark row. -/
def benchReturn (rows : List CleanRow) (t : String) : ℚ :=
  match rows.find? (fun r => r.strategy == "Benchmark" && r.ticker == t) with
  | some r => r.ret
  | none => 0

/-- `Beat_Market == 'Yes'` (build_dashboard.py lines 19–24). -/
def beatMarketB (rows : List CleanRow) (r : CleanRow) : Bool :=
  r.strategy != "Benchmark" && decide (benchReturn rows r.ticker < r.ret)

/-- `outperformers = df[(df['Strategy'] != 'Benchmark') & (df['Beat_Market'] == 'Yes')]`. -/
def outperformers (rows : List MetricsRow) : List CleanRow :=
  let c := cleanRows rows
  c.filter (fun r => r.strategy != "Benchmark" && beatMarketB c r)

/-- The decorated, stably sorted outperformer list (descending total return,
ties by input position). -/
def outSortedEnum (rows : List MetricsRow) : List (ℕ × CleanRow) :=
  sortedEnum (fun r : CleanRow => some r.ret) (outperformers rows)

/-- The decorated top-20 selection, before projecting the rows back out. -/
def top20enum (rows : List MetricsRow) : List (ℕ × CleanRow) :=
  (outSortedEnum rows).take 20

/-- `top10 = outperformers.nlargest(20, 'Total Return [%]')` (line 40). -/
def top20 (rows : List MetricsRow) : List CleanRow :=
  nlargestBy (fun r : CleanRow => some r.ret) 20 (outperformers rows)

/-! ## top_performers_analysis.py — composite-score ranking -/

/-- A strategy row after the left merge with its ticker's Benchmark data and
the derived `Beat_Market` / `Outperformance` columns (lines 15–23).  A ticker
with no Benchmark row gets `benchRet = none` (NaN): its `Beat_Market`
comparison is then `False` and its `Outperformance` NaN. -/
structure StratRow where
  ticker : String
  strategy : String
  ret : ℚ
  sharpe : ℚ
  maxDD : Option ℚ
  benchRet : Option ℚ
  beat : Bool
  outperf : Option ℚ
deriving DecidableEq

/-- The Benchmark row lookup feeding the left merge. -/
def benchLookup (c : List CleanRow) (t : String) : Option ℚ :=
  (c.find? (fun r => r.strategy == "Benchmark" && r.ticker == t)).map (·.ret)

/-- Derive one merged strategy row. -/
def mkStrat (c : List CleanRow) (r : CleanRow) : StratRow :=
  let b := benchLookup c r.ticker
  { ticker := r.ticker, strategy := r.strategy, ret := r.ret, sharpe := r.sharpe,
    maxDD := r.maxDD, benchRet := b,
    beat := match b with | some br => decide (br < r.ret) | none => false,
    outperf := b.map (fun br => r.ret - br) }

/-- `strategies_only` after the merge and derived columns. -/
def strategiesOnly (rows : List MetricsRow) : List StratRow :=
  let c := cleanRows rows
  (c.filter (fun r => r.strategy != "Benchmark")).map (mkStrat c)

/-- The composite filter (lines 28–32): Sharpe > 0.5, Beat_Market, positive
total return. -/
def top_strategies (rows : List MetricsRow) : List StratRow :=
  (strategiesOnly rows).filter fun s =>
    decide ((0.5 : ℚ) < s.sharpe) && s.beat && decide (0 < s.ret)

/-- `Composite_Score` (lines 36–41): NaN when an ingredient is NaN. -/
def compositeScore (s : StratRow) : Option ℚ :=
  match s.outperf, s.maxDD with
  | some o, some dd =>
    some (s.sharpe * (0.4 : ℚ) + (s.ret / 100) * (0.3 : ℚ) + (o / 100) * (0.2 : ℚ) +
      (-dd / 100) * (0.1 : ℚ))
  | _, _ => none

/-- A filtered row together with its stored `Composite_Score` column. -/
structure ScoredRow where
  base : StratRow
  score : Option ℚ
deriving DecidableEq

/-- `top_strategies` with the `Composite_Score` column added. -/
def scoredRows (rows : List MetricsRow) : List ScoredRow :=
  (top_strategies rows).map fun s => ⟨s, compositeScore s⟩

/-- `top_strategies.sort_values('Composite_Score', ascending=False)` (line 44). -/
def sortedScored (rows : List MetricsRow) : List ScoredRow :=
  sortDescBy (fun s : ScoredRow => s.score) (scoredRows rows)

/-- One exported row with its `Rank` column. -/
structure RankedRow where
  row : ScoredRow
  rank : ℕ
deriving DecidableEq

/-- `top_strategies['Rank'] = range(1, len(top_strategies) + 1)` followed by
`to_csv("results/top_performers_detailed.csv")` (lines 45 and 192): the full
ranked table is exported. -/
def detailedCSV (rows : List MetricsRow) : List RankedRow :=
  (sortedScored rows).enum.map fun p => ⟨p.2, p.1 + 1⟩

/-- `top_display = top_strategies.head(top_n)` with `top_n = 25` (lines
58–59): the truncation feeding only the rendered HTML ranking table. -/
def topDisplay (rows : List MetricsRow) : List RankedRow :=
  (detailedCSV rows).take 25

/-- "Not below" on possibly-missing scores, with missing scores at the
bottom: the order the exported ranking is non-increasing in. -/
def scoreGe (a b : Option ℚ) : Prop :=
  match a, b with
  | some x, some y => y ≤ x
  | some _, none => True
  | none, none => True
  | none, some _ => False

/-- Concrete daily ATR-percent fast line: crosses above the slow line at
t = 1 and back below it at t = 2. -/
def c3fast : ℕ → Option ℚ := fun t => if t = 1 then some 3 else some 1

/-- Concrete daily ATR-percent slow line. -/
def c3slow : ℕ → Option ℚ := fun _ => some 2

/-- A provider frame with all required columns and two valid rows: both
`download_weekly` and the daily fetch succeed on it. -/
def c2goodDaily : DailyData :=
  { cols := ["Open", "High", "Low", "Close", "Volume"]
    rows := [⟨0, 0, some 1, some 1, some 1, some 1, some 1⟩,
             ⟨1, 0, some 1, some 1, some 1, some 1, some 1⟩] }

/-- A ticker input whose fetches succeed but whose three strategies never
trade. -/
def c2noTradeInp : TickerInput :=
  { weeklyFetch := c2goodDaily, dailyFetch := c2goodDaily,
    firstTradeDates := [none, none, none] }

/-- A ticker input whose fetches succeed and whose Trend strategy first
trades on day 0. -/
def c2okInp : TickerInput :=
  { weeklyFetch := c2goodDaily, dailyFetch := c2goodDaily,
    firstTradeDates := [some 0, none, none] }

/-- A small metrics CSV: one ticker with its Benchmark row and one strategy
row that beats it. -/
def demoCSV : List MetricsRow :=
  [⟨"NVDA", "Benchmark", some 10, some 1, some (-5)⟩,
   ⟨"NVDA", "Trend", some 20, some 1, some (-8)⟩]

/-- The merged demo strategy row (Trend on NVDA, beating its benchmark). -/
def demoStrat : StratRow := mkStrat (cleanRows demoCSV) ⟨"NVDA", "Trend", 20, 1, some (-8)⟩

/-- The demo strategy row with its stored composite score. -/
def demoScored : ScoredRow := ⟨demoStrat, compositeScore demoStrat⟩

/-- Concrete weekly indicator series used to witness the trend-signal
characterization. -/
def c8demo : TrendSeries :=
  { close := fun t => if t = 1 then some 110 else some 100
    upper := fun _ => some 105
    stLine := fun _ => some 90
    stDir := fun _ => some 1
    ema21 := fun _ => some 50
    ema50 := fun _ => some 40 }

/-! # Theorems settling the claims -/

theorem optGT_iff {a b : Option ℚ} : optGT a b = true ↔ ∃ x y, a = some x ∧ b = some y ∧ y < x := by
  cases a <;> cases b <;> simp [optGT]

theorem optLT_iff {a b : Option ℚ} : optLT a b = true ↔ ∃ x y, a = some x ∧ b = some y ∧ x < y := by
  cases a <;> cases b <;> simp [optLT]

/-- **C8.** The Trend entry signal at a timestamp is true exactly when close
exceeds the previous bar's 10-period Donchian upper channel value AND the
20-period/1.0-multiplier supertrend direction is up AND the 21-period EMA
exceeds the 50-period EMA; the exit signal is true exactly when close is
below the supertrend bandline AND the direction is down; and any comparison
involving a missing (null) value yields no signal rather than an error. -/
theorem trend_signal_characterization (s : TrendSeries) (t : ℕ) :
    (trendEntries s t = true ↔
      ∃ c u e₁ e₂, s.close t = some c ∧ shift1 s.upper t = some u ∧ u < c ∧
        s.stDir t = some 1 ∧ s.ema21 t = some e₁ ∧ s.ema50 t = some e₂ ∧ e₂ < e₁) ∧
    (trendExits s t = true ↔
      ∃ c b, s.close t = some c ∧ s.stLine t = some b ∧ c < b ∧ s.stDir t = some (-1)) ∧
    ((s.close t = none ∨ shift1 s.upper t = none ∨ s.stDir t = none ∨
        s.ema21 t = none ∨ s.ema50 t = none) → trendEntries s t = false) ∧
    ((s.close t = none ∨ s.stLine t = none ∨ s.stDir t = none) → trendExits s t = false) ∧
    trendParams.donchianUpper = 10 ∧ trendParams.superLen = 20 ∧
    trendParams.superMult = 1 ∧ trendParams.emaFast = 21 ∧ trendParams.emaSlow = 50 := by
  refine ⟨?_, ?_, ?_, ?_, rfl, rfl, rfl, rfl, rfl⟩
  · constructor
    · intro h
      simp only [trendEntries, Bool.and_eq_true, beq_iff_eq] at h
      obtain ⟨⟨h₁, h₂⟩, h₃⟩ := h
      obtain ⟨c, u, hc, hu, hlt⟩ := optGT_iff.mp h₁
      obtain ⟨e₁, e₂, he₁, he₂, hee⟩ := optGT_iff.mp h₃
      exact ⟨c, u, e₁, e₂, hc, hu, hlt, h₂, he₁, he₂, hee⟩
    · rintro ⟨c, u, e₁, e₂, hc, hu, hlt, hdir, he₁, he₂, hee⟩
      simp only [trendEntries, Bool.and_eq_true, beq_iff_eq]
      exact ⟨⟨optGT_iff.mpr ⟨c, u, hc, hu, hlt⟩, hdir⟩, optGT_iff.mpr ⟨e₁, e₂, he₁, he₂, hee⟩⟩
  · constructor
    · intro h
      simp only [trendExits, Bool.and_eq_true, beq_iff_eq] at h
      obtain ⟨h₁, h₂⟩ := h
      obtain ⟨c, b, hc, hb, hlt⟩ := optLT_iff.mp h₁
      exact ⟨c, b, hc, hb, hlt, h₂⟩
    · rintro ⟨c, b, hc, hb, hlt, hdir⟩
      simp only [trendExits, Bool.and_eq_true, beq_iff_eq]
      exact ⟨optLT_iff.mpr ⟨c, b, hc, hb, hlt⟩, hdir⟩
  · rintro (h | h | h | h | h) <;>
      simp [trendEntries, optGT, h, Bool.and_eq_true]
  · rintro (h | h | h) <;>
      simp [trendExits, optLT, h, Bool.and_eq_true]

/-- Witness for C8: at a concrete series and timestamp the characterization
instantiates and produces the entry signal. -/
theorem trend_signal_characterization_witness : trendEntries c8demo 1 = true :=
  (trend_signal_characterization c8demo 1).1.mpr
    ⟨110, 105, 50, 40, rfl, rfl, by norm_num, rfl, rfl, rfl, by norm_num⟩

/-- **C3, counterexample.** With a crossover at t = 1 and a crossunder at
t = 2 and no bearish weekly trend, High-Vol's exit fires at t = 2 while
Low-Vol's entry does not (so Low-Vol's entry is not High-Vol's exit
condition), and Low-Vol's exit fires at t = 1 while High-Vol's entry does
not (so Low-Vol's exit is not High-Vol's entry condition). -/
theorem lowvol_mirror_counterexample :
    highVolExit (crossedBelow c3fast c3slow) 2 = true ∧
    lowVolEntry (crossedBelow c3fast c3slow) [] 2 = false ∧
    lowVolExit (crossedAbove c3fast c3slow) 1 = true ∧
    highVolEntry (crossedAbove c3fast c3slow) [] 1 = false := by
  decide

/-- **C3, amended.** Low-Vol's entry signal is High-Vol's (ungated) exit
crossunder AND-ed with the bearish-trend gate, and High-Vol's entry signal is
Low-Vol's (ungated) exit crossover AND-ed with the same gate; hence at every
timestamp a High-Vol entry implies a Low-Vol exit and a Low-Vol entry implies
a High-Vol exit, but the two equalities of the claim hold only when the gate
is bearish. -/
theorem lowvol_mirror_amended (entries exits : ℕ → Bool) (w : List (ℕ × ℤ)) (t : ℕ) :
    lowVolEntry exits w t = (highVolExit exits t && bearGate w t) ∧
    highVolEntry entries w t = (lowVolExit entries t && bearGate w t) ∧
    (highVolEntry entries w t = true → lowVolExit entries t = true) ∧
    (lowVolEntry exits w t = true → highVolExit exits t = true) := by
  refine ⟨rfl, rfl, ?_, ?_⟩
  · intro h
    simp only [highVolEntry, Bool.and_eq_true] at h
    exact h.1
  · intro h
    simp only [lowVolEntry, Bool.and_eq_true] at h
    exact h.1

/-- Witness for C3: with a bearish weekly trend the Low-Vol entry at the
t = 2 crossunder implies the High-Vol exit there. -/
theorem lowvol_mirror_amended_witness :
    highVolExit (crossedBelow c3fast c3slow) 2 = true :=
  (lowvol_mirror_amended (crossedAbove c3fast c3slow) (crossedBelow c3fast c3slow)
    [(0, -1)] 2).2.2.2 (by decide)

/-- **C5.** When a statistic cannot be computed, only that metric is reported
as a missing value and every other metric of the same portfolio is still
computed; nothing is reported as zero in its place and the (total) function
raises nothing.  Concretely: (a) with zero trades the trade-quality metrics
are all `none` while the trade count is a genuine 0 and the base and
annualized metrics are untouched; (b) with zero elapsed time only the
annualized return becomes `none`, every other metric being identical to any
other duration's value; (c) with no losing trades (a division by zero in the
profit factor) only the profit factor is `none` while the trade count and win
rate are still computed. -/
theorem stats_failure_isolation (powQ : ℚ → ℚ → ℚ) (bs : BaseStats) (dd : Option ℤ)
    (tt : Option TradeTable) (rows : List Trade) (hr : Bool)
    (hne : rows ≠ []) (hnl : ∀ tr ∈ rows, 0 ≤ tr.pnl) :
    (get_extended_stats powQ (some bs) dd false (some ⟨hr, []⟩) =
      { totalReturn := bs.totalReturn
        annualizedReturn := annualizedReturnCalc powQ bs.totalReturn dd
        maxDD := bs.maxDD
        sharpe := bs.sharpe
        sortino := bs.sortino
        calmar := bs.calmar
        totalTrades := some 0
        winRate := none
        avgWinningTrade := none
        avgLosingTrade := none
        profitFactor := none
        bestReturn := none
        worstReturn := none }) ∧
    (annualizedReturnCalc powQ bs.totalReturn (some 0) = none) ∧
    ((get_extended_stats powQ (some bs) (some 0) false tt).annualizedReturn = none ∧
     (get_extended_stats powQ (some bs) (some 0) false tt).totalReturn =
       (get_extended_stats powQ (some bs) dd false tt).totalReturn ∧
     (get_extended_stats powQ (some bs) (some 0) false tt).maxDD =
       (get_extended_stats powQ (some bs) dd false tt).maxDD ∧
     (get_extended_stats powQ (some bs) (some 0) false tt).sharpe =
       (get_extended_stats powQ (some bs) dd false tt).sharpe ∧
     (get_extended_stats powQ (some bs) (some 0) false tt).sortino =
       (get_extended_stats powQ (some bs) dd false tt).sortino ∧
     (get_extended_stats powQ (some bs) (some 0) false tt).calmar =
       (get_extended_stats powQ (some bs) dd false tt).calmar ∧
     (get_extended_stats powQ (some bs) (some 0) false tt).totalTrades =
       (get_extended_stats powQ (some bs) dd false tt).totalTrades ∧
     (get_extended_stats powQ (some bs) (some 0) false tt).winRate =
       (get_extended_stats powQ (some bs) dd false tt).winRate ∧
     (get_extended_stats powQ (some bs) (some 0) false tt).profitFactor =
       (get_extended_stats powQ (some bs) dd false tt).profitFactor) ∧
    ((get_extended_stats powQ (some bs) dd false (some ⟨hr, rows⟩)).profitFactor = none ∧
     (get_extended_stats powQ (some bs) dd false (some ⟨hr, rows⟩)).totalTrades =
       some rows.length ∧
     (get_extended_stats powQ (some bs) dd false (some ⟨hr, rows⟩)).winRate =
       some (((rows.filter fun tr => 0 < tr.pnl).length : ℚ) / (rows.length : ℚ) * 100)) := by
  have hlen : 0 < rows.length := List.length_pos.mpr hne
  have hloss : rows.filter (fun tr => decide (tr.pnl < 0)) = [] := by
    rw [List.filter_eq_nil_iff]
    intro tr htr
    simp only [decide_eq_true_eq]
    exact not_lt.mpr (hnl tr htr)
  refine ⟨rfl, ?_, ⟨?_, rfl, rfl, rfl, rfl, rfl, rfl, rfl, rfl⟩, ?_, ?_, ?_⟩
  · cases h : bs.totalReturn with
    | none => simp [annualizedReturnCalc, h]
    | some tr => norm_num [annualizedReturnCalc, h]
  · cases h : bs.totalReturn with
    | none => simp [get_extended_stats, annualizedReturnCalc, h]
    | some tr => norm_num [get_extended_stats, annualizedReturnCalc, h]
  · simp [get_extended_stats, tradeBlock, hlen, hloss]
  · simp [get_extended_stats, tradeBlock, hlen]
  · simp [get_extended_stats, tradeBlock, hlen]

/-- Witness for C5: on a concrete portfolio with one winning trade and a
zero-day index span, the profit factor alone is missing. -/
theorem stats_failure_isolation_witness :
    ([(⟨1, 1⟩ : Trade)] ≠ [] ∧ ∀ tr ∈ [(⟨1, 1⟩ : Trade)], 0 ≤ tr.pnl) ∧
    (get_extended_stats (fun _ _ => 0) (some ⟨some 1, some 2, some 3, none, none⟩)
      (some 0) false (some ⟨true, [⟨1, 1⟩]⟩)).profitFactor = none :=
  ⟨⟨by decide, by decide⟩,
    (stats_failure_isolation (fun _ _ => 0) ⟨some 1, some 2, some 3, none, none⟩
      (some 0) (some ⟨true, [⟨1, 1⟩]⟩) [⟨1, 1⟩] true (by decide) (by decide)).2.2.2.1⟩

instance : Std.Antisymm (fun (a b : ℚ) => a ≤ b) where
  antisymm := fun h h' => le_antisymm h h'

theorem maxSome_spec (l : List (Option ℚ)) (m : ℚ) :
    maxSome l = some m ↔ m ∈ l.filterMap id ∧ ∀ x ∈ l.filterMap id, x ≤ m :=
  List.max?_eq_some_iff (fun _ => le_refl _) max_choice (fun _ _ _ => max_le_iff)

theorem minSome_spec (l : List (Option ℚ)) (m : ℚ) :
    minSome l = some m ↔ m ∈ l.filterMap id ∧ ∀ x ∈ l.filterMap id, m ≤ x :=
  List.min?_eq_some_iff (fun _ => le_refl _) min_choice (fun _ _ _ => le_min_iff)

theorem length_filterMap_eq_length_filter {α β : Type} (f : α → Option β) (l : List α) :
    (l.filterMap f).length = (l.filter (fun x => (f x).isSome)).length := by
  induction l with
  | nil => rfl
  | cons a t ih => cases h : f a <;> simp [List.filterMap_cons, h, ih, List.filter_cons]

theorem aggGroup_isSome (grp : List DailyRow) :
    (aggGroup grp).isSome =
      ((firstSome (grp.map (·.openP))).isSome && (maxSome (grp.map (·.highP))).isSome &&
       (minSome (grp.map (·.lowP))).isSome && (lastSome (grp.map (·.closeP))).isSome) := by
  cases grp with
  | nil => rfl
  | cons r0 t =>
    unfold aggGroup
    simp only [List.head?_cons]
    rcases ho : firstSome (List.map (fun x => x.openP) (r0 :: t)) with _ | o <;>
      rcases hh : maxSome (List.map (fun x => x.highP) (r0 :: t)) with _ | h <;>
      rcases hl : minSome (List.map (fun x => x.lowP) (r0 :: t)) with _ | l <;>
      rcases hc : lastSome (List.map (fun x => x.closeP) (r0 :: t)) with _ | c <;>
      rw [ho, hh, hl, hc] <;> rfl

/-- **C9.** `download_weekly` fails (returns no data, so the ticker is
skipped) exactly when the provider frame is empty or a required OHLCV column
is missing after title-casing; on success the weekly series aggregates each
calendar week with Open = first, High = max, Low = min, Close = last
(each over the week's non-null cells), Volume = sum, and exactly the
aggregated rows still containing a null are dropped. -/
theorem download_weekly_characterization (df : DailyData) :
    (download_weekly df = none ↔
      df.rows = [] ∨ ¬ (∀ c ∈ requiredCols, c ∈ df.cols.map titleCase)) ∧
    (∀ w, download_weekly df = some w →
      w = resampleWeekly df.rows ∧
      w.length = ((weekGroups df.rows).filter (fun grp =>
        (firstSome (grp.map (·.openP))).isSome && (maxSome (grp.map (·.highP))).isSome &&
        (minSome (grp.map (·.lowP))).isSome &&
        (lastSome (grp.map (·.closeP))).isSome)).length ∧
      ∀ r ∈ w, ∃ grp ∈ weekGroups df.rows,
        ((grp.map (·.openP)).filterMap id).head? = some r.openP ∧
        r.highP ∈ (grp.map (·.highP)).filterMap id ∧
        (∀ x ∈ (grp.map (·.highP)).filterMap id, x ≤ r.highP) ∧
        r.lowP ∈ (grp.map (·.lowP)).filterMap id ∧
        (∀ x ∈ (grp.map (·.lowP)).filterMap id, r.lowP ≤ x) ∧
        ((grp.map (·.closeP)).filterMap id).getLast? = some r.closeP ∧
        r.volP = ((grp.map (·.volP)).filterMap id).sum) := by
  constructor
  · unfold download_weekly
    constructor
    · intro h
      split_ifs at h with h1 h2
      · exact Or.inl (List.isEmpty_iff.mp h1)
      · right
        intro hall
        apply h2
        rw [List.all_eq_true]
        intro c hc
        exact List.elem_eq_true_of_mem (hall c hc)
    · intro h
      by_cases h1 : df.rows.isEmpty
      · rw [if_pos h1]
      · rw [if_neg h1, if_neg]
        rcases h with h | h
        · exact absurd (List.isEmpty_iff.mpr h) h1
        · intro hcol
          apply h
          intro c hc
          exact List.mem_of_elem_eq_true (List.all_eq_true.mp hcol c hc)
  · intro w hw
    have hwre : w = resampleWeekly df.rows := by
      unfold download_weekly at hw
      split_ifs at hw with h1 h2
      exact (Option.some_inj.mp hw).symm
    refine ⟨hwre, ?_, ?_⟩
    · rw [hwre]
      unfold resampleWeekly
      rw [length_filterMap_eq_length_filter]
      congr 1
      apply List.filter_congr
      intro grp _
      exact aggGroup_isSome grp
    · intro r hr
      rw [hwre] at hr
      unfold resampleWeekly at hr
      obtain ⟨grp, hgrp, hagg⟩ := List.mem_filterMap.mp hr
      refine ⟨grp, hgrp, ?_⟩
      unfold aggGroup at hagg
      rcases hhd : grp.head? with _ | r0 <;> rw [hhd] at hagg
      · exact absurd hagg (by simp)
      rcases ho : firstSome (grp.map (·.openP)) with _ | o <;> rw [ho] at hagg <;>
        [exact absurd hagg (by simp); skip]
      rcases hh : maxSome (grp.map (·.highP)) with _ | hv <;> rw [hh] at hagg <;>
        [exact absurd hagg (by simp); skip]
      rcases hl : minSome (grp.map (·.lowP)) with _ | lv <;> rw [hl] at hagg <;>
        [exact absurd hagg (by simp); skip]
      rcases hc : lastSome (grp.map (·.closeP)) with _ | cv <;> rw [hc] at hagg <;>
        [exact absurd hagg (by simp); skip]
      obtain rfl : (⟨r0.week, o, hv, lv, cv, sumSome (grp.map (·.volP))⟩ : WeeklyRow) = r :=
        Option.some.injEq _ _ ▸ hagg
      obtain ⟨hmem, hub⟩ := (maxSome_spec _ _).mp hh
      obtain ⟨hmem2, hlb⟩ := (minSome_spec _ _).mp hl
      exact ⟨ho, hmem, hub, hmem2, hlb, hc, rfl⟩

/-- Witness for C9: the characterization applied to a concrete successful
download. -/
theorem download_weekly_characterization_witness :
    download_weekly c2goodDaily = some (resampleWeekly c2goodDaily.rows) ∧
    (resampleWeekly c2goodDaily.rows).length =
      ((weekGroups c2goodDaily.rows).filter (fun grp =>
        (firstSome (grp.map (·.openP))).isSome && (maxSome (grp.map (·.highP))).isSome &&
        (minSome (grp.map (·.lowP))).isSome &&
        (lastSome (grp.map (·.closeP))).isSome)).length := by
  have h1 : download_weekly c2goodDaily = some (resampleWeekly c2goodDaily.rows) := by
    unfold download_weekly
    rw [if_neg (by decide), if_pos (by decide)]
  exact ⟨h1, ((download_weekly_characterization c2goodDaily).2 _ h1).2.1⟩

theorem filter_ge_head_sorted {l : List ℕ} (hs : List.Sorted (fun a b => a ≤ b) l) {m : ℕ}
    (hm : m ∈ l) : (l.filter (fun d => m ≤ d)).head? = some m := by
  induction l with
  | nil => cases hm
  | cons a t ih =>
    rcases List.mem_cons.mp hm with rfl | hmt
    · rw [List.filter_cons, if_pos (by simp)]
      rfl
    · have ham : a ≤ m := (List.sorted_cons.mp hs).1 m hmt
      rw [List.filter_cons]
      by_cases hcond : m ≤ a
      · have hae : a = m := le_antisymm ham hcond
        rw [if_pos (by simpa using hcond)]
        simp [hae]
      · rw [if_neg (by simpa using hcond)]
        exact ih (List.sorted_cons.mp hs).2 hmt

/-- **C4.** When the per-ticker loop produces a start date `s`, then `s` is a
member of the daily price index, it is at least the earliest first-trade date
`m` across the three active strategies, it is the least index entry on or
after `m` (the next available trading date), it equals `m` whenever `m` is
itself a trading date, and the benchmark window `close_d.loc[start:]` shared
by all four portfolios begins exactly at `s`. -/
theorem start_date_sync (fds : List (Option ℕ)) (index : List ℕ) (s : ℕ)
    (hsorted : List.Sorted (fun a b => a ≤ b) index)
    (hs : computeStart fds index = some s) :
    ∃ m, (fds.filterMap id).min? = some m ∧ s ∈ index ∧ m ≤ s ∧
      (∀ d ∈ index, m ≤ d → s ≤ d) ∧ (m ∈ index → s = m) ∧
      (index.filter (fun d => s ≤ d)).head? = some s := by
  unfold computeStart at hs
  rcases hmin : (fds.filterMap id).min? with _ | m <;> rw [hmin] at hs
  · exact Option.noConfusion hs
  dsimp only at hs
  refine ⟨m, rfl, ?_⟩
  by_cases hmem : m ∈ index
  · rw [if_pos hmem] at hs
    obtain rfl : m = s := Option.some_inj.mp hs
    exact ⟨hmem, le_refl m, fun d _ h => h, fun _ => rfl, filter_ge_head_sorted hsorted hmem⟩
  · rw [if_neg hmem] at hs
    obtain ⟨rest, hfe⟩ : ∃ rest, index.filter (fun d => m ≤ d) = s :: rest := by
      cases hfil : index.filter (fun d => m ≤ d) with
      | nil => rw [hfil] at hs; exact Option.noConfusion hs
      | cons x xs =>
        rw [hfil] at hs
        have hxs : x = s := Option.some_inj.mp hs
        exact ⟨xs, by rw [hxs]⟩
    have hsfil : s ∈ index.filter (fun d => m ≤ d) := by
      rw [hfe]; exact List.mem_cons_self s rest
    have hsidx : s ∈ index := List.mem_of_mem_filter hsfil
    have hms : m ≤ s := by
      have := List.of_mem_filter hsfil
      simpa using this
    refine ⟨hsidx, hms, ?_, fun hmi => absurd hmi hmem, filter_ge_head_sorted hsorted hsidx⟩
    intro d hd hmd
    have hdfil : d ∈ index.filter (fun d => m ≤ d) :=
      List.mem_filter.mpr ⟨hd, by simpa using hmd⟩
    rw [hfe] at hdfil
    rcases List.mem_cons.mp hdfil with rfl | hdrest
    · exact le_refl d
    · have hsortf : List.Sorted (fun a b => a ≤ b) (index.filter (fun d => m ≤ d)) :=
        List.Pairwise.filter _ hsorted
      rw [hfe] at hsortf
      exact (List.sorted_cons.mp hsortf).1 d hdrest

/-- Witness for C4: earliest first trade on day 3 (not a trading day), index
sorted, the start advances to day 4. -/
theorem start_date_sync_witness :
    ∃ m, (([some 5, none, some 3].filterMap id).min? = some m ∧ 4 ∈ [1, 2, 4, 6] ∧ m ≤ 4 ∧
      (∀ d ∈ [1, 2, 4, 6], m ≤ d → 4 ≤ d) ∧ (m ∈ [1, 2, 4, 6] → 4 = m) ∧
      ([1, 2, 4, 6].filter (fun d => 4 ≤ d)).head? = some 4) :=
  start_date_sync [some 5, none, some 3] [1, 2, 4, 6] 4 (by decide) (by decide)

theorem processTicker_ticker (t : String) (inp : TickerInput) :
    ∀ r ∈ processTicker t inp, r.ticker = t := by
  intro r hr
  unfold processTicker at hr
  split at hr
  · exact absurd hr (List.not_mem_nil r)
  · split at hr
    · exact absurd hr (List.not_mem_nil r)
    · split at hr
      · exact absurd hr (List.not_mem_nil r)
      · simp only [List.mem_cons, List.not_mem_nil, or_false] at hr
        rcases hr with rfl | rfl | rfl | rfl <;> rfl

theorem resultsTable_ticker_mem (inputs : List (String × TickerInput)) :
    ∀ r ∈ resultsTable inputs, r.ticker ∈ inputs.map Prod.fst := by
  intro r hr
  unfold resultsTable at hr
  rw [List.mem_flatten] at hr
  obtain ⟨l, hl, hrl⟩ := hr
  rw [List.mem_map] at hl
  obtain ⟨p, hp, rfl⟩ := hl
  rw [List.mem_map]
  exact ⟨p, hp, (processTicker_ticker p.1 p.2 r hrl).symm⟩

theorem resultsTable_filter (t : String) (inp : TickerInput)
    (inputs : List (String × TickerInput)) (hnd : (inputs.map Prod.fst).Nodup)
    (hmem : (t, inp) ∈ inputs) :
    (resultsTable inputs).filter (fun r => r.ticker == t) = processTicker t inp := by
  induction inputs with
  | nil => cases hmem
  | cons p ps ih =>
    rw [List.map_cons, List.nodup_cons] at hnd
    have htable : resultsTable (p :: ps) = processTicker p.1 p.2 ++ resultsTable ps := by
      unfold resultsTable
      rw [List.map_cons, List.flatten_cons]
    rw [htable, List.filter_append]
    rcases List.mem_cons.mp hmem with heq | hin
    · obtain rfl : p = (t, inp) := heq.symm
      have hfl : (processTicker t inp).filter (fun r => r.ticker == t) = processTicker t inp := by
        apply List.filter_eq_self.mpr
        intro r hr
        simp [processTicker_ticker t inp r hr]
      have hrest : (resultsTable ps).filter (fun r => r.ticker == t) = [] := by
        apply List.filter_eq_nil_iff.mpr
        intro r hr hb
        have h1 := resultsTable_ticker_mem ps r hr
        have h2 : r.ticker = t := by simpa using hb
        exact hnd.1 (h2 ▸ h1)
      rw [hfl, hrest, List.append_nil]
    · have hpt : p.1 ≠ t := by
        intro he
        exact hnd.1 (he ▸ List.mem_map.mpr ⟨(t, inp), hin, rfl⟩)
      have hhead : (processTicker p.1 p.2).filter (fun r => r.ticker == t) = [] := by
        apply List.filter_eq_nil_iff.mpr
        intro r hr hb
        have h1 := processTicker_ticker p.1 p.2 r hr
        have h2 : r.ticker = t := by simpa using hb
        exact hpt (h1 ▸ h2)
      rw [hhead, List.nil_append]
      exact ih hnd.2 hin

theorem processTicker_cases (t : String) (inp : TickerInput) :
    (processTicker t inp = [] ∧
      (download_weekly inp.weeklyFetch = none ∨ inp.dailyFetch.rows = [] ∨
       computeStart inp.firstTradeDates (inp.dailyFetch.rows.map (·.date)) = none)) ∨
    (processTicker t inp =
        [⟨t, "Trend"⟩, ⟨t, "High_Vol"⟩, ⟨t, "Low_Vol"⟩, ⟨t, "Benchmark"⟩] ∧
      download_weekly inp.weeklyFetch ≠ none ∧ inp.dailyFetch.rows ≠ [] ∧
      computeStart inp.firstTradeDates (inp.dailyFetch.rows.map (·.date)) ≠ none) := by
  rcases hdw : download_weekly inp.weeklyFetch with _ | w
  · left
    refine ⟨?_, Or.inl rfl⟩
    unfold processTicker
    rw [hdw]
  · by_cases hde : inp.dailyFetch.rows.isEmpty
    · left
      refine ⟨?_, Or.inr (Or.inl (List.isEmpty_iff.mp hde))⟩
      unfold processTicker
      rw [hdw, if_pos hde]
    · rcases hcs : computeStart inp.firstTradeDates (inp.dailyFetch.rows.map (·.date))
        with _ | s
      · left
        refine ⟨?_, Or.inr (Or.inr hcs)⟩
        unfold processTicker
        rw [hdw, if_neg hde, hcs]
      · right
        refine ⟨?_, by simp [hdw], ?_, by simp [hcs]⟩
        · unfold processTicker
          rw [hdw, if_neg hde, hcs]
        · intro h
          exact hde (List.isEmpty_iff.mpr h)

/-- **C2, counterexample.** A ticker whose weekly and daily fetches both
succeed but whose three strategies never open a trade contributes zero rows:
fetch failure is not the only condition that produces zero rows. -/
theorem ticker_rows_counterexample :
    download_weekly c2noTradeInp.weeklyFetch ≠ none ∧
    c2noTradeInp.dailyFetch.rows ≠ [] ∧
    processTicker "NVDA" c2noTradeInp = [] := by
  refine ⟨by decide, by decide, by decide⟩

/-- **C2, amended.** Every ticker contributes either zero rows or exactly
four (one Benchmark and three non-Benchmark, all carrying its symbol), and it
contributes four exactly when the weekly download succeeds, the daily frame
is nonempty, AND the synchronized start date exists (at least one strategy
traded and the start advances into the daily index); under a universe without
duplicate symbols, the rows of the summary table carrying a ticker's symbol
are exactly that ticker's block. -/
theorem ticker_rows_amended (t : String) (inp : TickerInput) :
    ((processTicker t inp).length = 0 ∨ (processTicker t inp).length = 4) ∧
    ((processTicker t inp).length = 4 ↔
      (download_weekly inp.weeklyFetch ≠ none ∧ inp.dailyFetch.rows ≠ [] ∧
       computeStart inp.firstTradeDates (inp.dailyFetch.rows.map (·.date)) ≠ none)) ∧
    (∀ r ∈ processTicker t inp, r.ticker = t) ∧
    ((processTicker t inp).length = 4 →
      ((processTicker t inp).filter (fun r => r.strategy == "Benchmark")).length = 1 ∧
      ((processTicker t inp).filter (fun r => r.strategy != "Benchmark")).length = 3) ∧
    (∀ inputs : List (String × TickerInput), (inputs.map Prod.fst).Nodup →
      (t, inp) ∈ inputs →
      (resultsTable inputs).filter (fun r => r.ticker == t) = processTicker t inp) := by
  have hc := processTicker_cases t inp
  refine ⟨?_, ?_, processTicker_ticker t inp, ?_, fun inputs hnd hmem =>
    resultsTable_filter t inp inputs hnd hmem⟩
  · rcases hc with ⟨h, _⟩ | ⟨h, _⟩
    · exact Or.inl (by rw [h]; rfl)
    · exact Or.inr (by rw [h]; rfl)
  · rcases hc with ⟨h, hcond⟩ | ⟨h, h1, h2, h3⟩
    · rw [h]
      constructor
      · intro h4
        exact absurd h4 (by decide)
      · rintro ⟨hh1, hh2, hh3⟩
        rcases hcond with hcc | hcc | hcc
        · exact absurd hcc hh1
        · exact absurd hcc hh2
        · exact absurd hcc hh3
    · rw [h]
      exact iff_of_true rfl ⟨h1, h2, h3⟩
  · rcases hc with ⟨h, _⟩ | ⟨h, _⟩
    · rw [h]
      intro h4
      exact absurd h4 (by decide)
    · rw [h]
      intro _
      exact ⟨rfl, rfl⟩

/-- Witness for C2: with a successful fetch and a first trade on day 0 the
ticker contributes its four rows, and in a one-ticker universe the summary
table's "NVDA" rows are exactly that block. -/
theorem ticker_rows_amended_witness :
    (processTicker "NVDA" c2okInp).length = 4 ∧
    (resultsTable [("NVDA", c2okInp)]).filter (fun r => r.ticker == "NVDA") =
      processTicker "NVDA" c2okInp :=
  ⟨((ticker_rows_amended "NVDA" c2okInp).2.1).mpr ⟨by decide, by decide, by decide⟩,
   (ticker_rows_amended "NVDA" c2okInp).2.2.2.2 [("NVDA", c2okInp)] (by decide) (by decide)⟩

theorem simStep_fill_fee (cfg : SimCfg) (st : ℚ × ℚ) (b : Bar) (f : Fill)
    (h : (simStep cfg st b).2 = some f) : f.fee = cfg.fees * f.value := by
  unfold simStep at h
  split_ifs at h <;> dsimp only at h
  all_goals first
    | exact Option.noConfusion h
    | (obtain rfl := Option.some_inj.mp h; exact mul_comm _ _)

theorem simRun_fill_fee (cfg : SimCfg) (bars : List Bar) :
    ∀ st : ℚ × ℚ, ∀ f ∈ (simRun cfg st bars).2, f.fee = cfg.fees * f.value := by
  induction bars with
  | nil =>
    intro st f hf
    exact absurd hf (List.not_mem_nil f)
  | cons b bs ih =>
    intro st f hf
    unfold simRun at hf
    rw [List.mem_append] at hf
    rcases hf with hf | hf
    · have : (simStep cfg st b).2 = some f := by
        rcases hstep : (simStep cfg st b).2 with _ | g <;> rw [hstep] at hf
        · exact absurd hf (List.not_mem_nil f)
        · rw [Option.toList_some, List.mem_singleton] at hf
          rw [hf]
      exact simStep_fill_fee cfg st b f this
    · exact ih _ f hf

/-- **C1, counterexample.** The Low_Vol portfolio is simulated without the
commission: its `from_signals` call omits `fees`, so a concrete entry fill of
value 10000 pays a fee of 0 instead of the proportional
`COMMISSION × 10000 ≠ 0`; hence commission is not applied on every fill for
every one of the three portfolios. -/
theorem commission_counterexample :
    (simulate lowVolCfg [⟨100, true, false⟩]).2 = [⟨10000, 0, true⟩] ∧
    COMMISSION * (10000 : ℚ) ≠ 0 ∧
    ¬ (∀ cfg ∈ [trendCfg, highVolCfg, lowVolCfg], ∀ bars : List Bar,
        ∀ f ∈ (simulate cfg bars).2, f.fee = COMMISSION * f.value) := by
  have hs : (simulate lowVolCfg [⟨100, true, false⟩]).2 = [⟨10000, 0, true⟩] := by
    norm_num [simulate, simRun, simStep, lowVolCfg, INITIAL_CASH, SIZE_PERCENT]
  refine ⟨hs, by norm_num [COMMISSION], ?_⟩
  intro hall
  have h := hall lowVolCfg (by simp) [⟨100, true, false⟩] ⟨10000, 0, true⟩
    (by rw [hs]; exact List.mem_singleton.mpr rfl)
  norm_num [COMMISSION] at h

/-- **C1, amended.** All three strategy portfolios are simulated long-only
with a position sized as the fixed `SIZE_PERCENT` fraction of current equity,
and every fill is charged the proportional commission of its own
configuration; that configured rate is `COMMISSION` for Trend and High_Vol
but 0 for Low_Vol, whose `from_signals` call omits the `fees` argument. -/
theorem commission_fills_amended :
    (trendCfg.fees = COMMISSION ∧ highVolCfg.fees = COMMISSION ∧ lowVolCfg.fees = 0 ∧
     trendCfg.size = SIZE_PERCENT ∧ highVolCfg.size = SIZE_PERCENT ∧
     lowVolCfg.size = SIZE_PERCENT ∧
     trendCfg.initCash = INITIAL_CASH ∧ highVolCfg.initCash = INITIAL_CASH ∧
     lowVolCfg.initCash = INITIAL_CASH) ∧
    (∀ cfg : SimCfg, ∀ bars : List Bar, ∀ f ∈ (simulate cfg bars).2,
      f.fee = cfg.fees * f.value) ∧
    (∀ cash price : ℚ, ∀ f : Fill,
      (simStep trendCfg (cash, 0) ⟨price, true, false⟩).2 = some f →
        f.value + f.fee = SIZE_PERCENT * cash) ∧
    (∀ cash price : ℚ, ∀ f : Fill,
      (simStep highVolCfg (cash, 0) ⟨price, true, false⟩).2 = some f →
        f.value + f.fee = SIZE_PERCENT * cash) ∧
    (∀ cash price : ℚ, ∀ f : Fill,
      (simStep lowVolCfg (cash, 0) ⟨price, true, false⟩).2 = some f →
        f.value + f.fee = SIZE_PERCENT * cash ∧ f.fee = 0) := by
  refine ⟨⟨rfl, rfl, rfl, rfl, rfl, rfl, rfl, rfl, rfl⟩,
    fun cfg bars f hf => simRun_fill_fee cfg bars _ f hf, ?_, ?_, ?_⟩
  · intro cash price f h
    norm_num [simStep, trendCfg, COMMISSION, SIZE_PERCENT] at h
    rw [← h]
    norm_num [SIZE_PERCENT]
    ring
  · intro cash price f h
    norm_num [simStep, highVolCfg, COMMISSION, SIZE_PERCENT] at h
    rw [← h]
    norm_num [SIZE_PERCENT]
    ring
  · intro cash price f h
    norm_num [simStep, lowVolCfg, SIZE_PERCENT] at h
    rw [← h]
    norm_num [SIZE_PERCENT]

/-- Witness for C1: the amended statement instantiated at a concrete
commission-free Low_Vol entry fill. -/
theorem commission_fills_amended_witness :
    (⟨10000, 0, true⟩ : Fill).value + (⟨10000, 0, true⟩ : Fill).fee =
      SIZE_PERCENT * 10000 ∧ (⟨10000, 0, true⟩ : Fill).fee = 0 :=
  commission_fills_amended.2.2.2.2 10000 100 ⟨10000, 0, true⟩
    (by norm_num [simStep, lowVolCfg, SIZE_PERCENT])

/-- **C7.** The composite ranking keeps exactly the merged strategy rows with
Sharpe > 0.5, Beat_Market true (which means: the ticker's Benchmark row
exists and the strategy's total return exceeds it) and positive total return;
every kept row's stored `Composite_Score` equals
0.4·Sharpe + 0.3·(return/100) + 0.2·(outperformance/100) − 0.1·(maxDD/100),
so recomputing it from the stored fields reproduces it exactly (and in
particular within a 1e-6 tolerance). -/
theorem composite_filter_score (rows : List MetricsRow) :
    (∀ s : StratRow, s ∈ top_strategies rows ↔
      (s ∈ strategiesOnly rows ∧ (0.5 : ℚ) < s.sharpe ∧ s.beat = true ∧ 0 < s.ret)) ∧
    (∀ s ∈ strategiesOnly rows,
      (s.beat = true ↔ ∃ br, s.benchRet = some br ∧ br < s.ret)) ∧
    (∀ s ∈ top_strategies rows, ∃ o, s.outperf = some o) ∧
    (∀ p ∈ scoredRows rows, ∀ o dd, p.base.outperf = some o → p.base.maxDD = some dd →
      p.score = some ((0.4 : ℚ) * p.base.sharpe + (0.3 : ℚ) * (p.base.ret / 100) +
        (0.2 : ℚ) * (o / 100) - (0.1 : ℚ) * (dd / 100))) ∧
    (∀ p ∈ scoredRows rows, ∀ q : ℚ, p.score = some q →
      ∃ o dd, p.base.outperf = some o ∧ p.base.maxDD = some dd ∧
        |q - ((0.4 : ℚ) * p.base.sharpe + (0.3 : ℚ) * (p.base.ret / 100) +
          (0.2 : ℚ) * (o / 100) - (0.1 : ℚ) * (dd / 100))| ≤ 1 / 1000000) := by
  have hbeat : ∀ s ∈ strategiesOnly rows,
      (s.beat = true ↔ ∃ br, s.benchRet = some br ∧ br < s.ret) := by
    intro s hs
    unfold strategiesOnly at hs
    rw [List.mem_map] at hs
    obtain ⟨r, _, rfl⟩ := hs
    rcases hb : benchLookup (cleanRows rows) r.ticker with _ | br <;>
      simp [mkStrat, hb]
  have hscore : ∀ p ∈ scoredRows rows, ∀ o dd,
      p.base.outperf = some o → p.base.maxDD = some dd →
      p.score = some ((0.4 : ℚ) * p.base.sharpe + (0.3 : ℚ) * (p.base.ret / 100) +
        (0.2 : ℚ) * (o / 100) - (0.1 : ℚ) * (dd / 100)) := by
    intro p hp o dd ho hdd
    unfold scoredRows at hp
    rw [List.mem_map] at hp
    obtain ⟨s, _, rfl⟩ := hp
    dsimp only at ho hdd ⊢
    unfold compositeScore
    rw [ho, hdd]
    dsimp only
    exact congrArg some (by ring)
  refine ⟨?_, hbeat, ?_, hscore, ?_⟩
  · intro s
    unfold top_strategies
    rw [List.mem_filter]
    simp [and_assoc]
  · intro s hs
    have hsf := hs
    unfold top_strategies at hsf
    rw [List.mem_filter] at hsf
    obtain ⟨hmem, hpred⟩ := hsf
    simp only [Bool.and_eq_true, decide_eq_true_eq] at hpred
    obtain ⟨br, hbr, _⟩ := (hbeat s hmem).mp hpred.1.2
    unfold strategiesOnly at hmem
    rw [List.mem_map] at hmem
    obtain ⟨r, _, rfl⟩ := hmem
    simp only [mkStrat] at hbr ⊢
    rw [hbr]
    exact ⟨r.ret - br, rfl⟩
  · intro p hp q hq
    unfold scoredRows at hp
    rw [List.mem_map] at hp
    obtain ⟨s, _, rfl⟩ := hp
    dsimp only at hq ⊢
    unfold compositeScore at hq
    rcases ho : s.outperf with _ | o <;> rw [ho] at hq
    · exact Option.noConfusion hq
    rcases hdd : s.maxDD with _ | dd <;> rw [hdd] at hq
    · exact Option.noConfusion hq
    refine ⟨o, dd, rfl, rfl, ?_⟩
    obtain rfl := (Option.some_inj.mp hq).symm
    have hz : s.sharpe * (0.4 : ℚ) + s.ret / 100 * (0.3 : ℚ) + o / 100 * (0.2 : ℚ) +
        -dd / 100 * (0.1 : ℚ) -
        ((0.4 : ℚ) * s.sharpe + (0.3 : ℚ) * (s.ret / 100) + (0.2 : ℚ) * (o / 100) -
          (0.1 : ℚ) * (dd / 100)) = 0 := by ring
    rw [hz]
    norm_num

/-- Witness for C7: the stored score of the concrete demo row equals the
recomputed formula. -/
theorem composite_filter_score_witness :
    demoScored.score = some ((0.4 : ℚ) * demoScored.base.sharpe +
      (0.3 : ℚ) * (demoScored.base.ret / 100) + (0.2 : ℚ) * ((10 : ℚ) / 100) -
      (0.1 : ℚ) * ((-8 : ℚ) / 100)) := by
  have hmem : demoScored ∈ scoredRows demoCSV := by
    apply List.mem_map.mpr
    refine ⟨demoStrat, ?_, rfl⟩
    apply List.mem_filter.mpr
    constructor
    · apply List.mem_map.mpr
      exact ⟨⟨"NVDA", "Trend", 20, 1, some (-8)⟩, by decide, rfl⟩
    · norm_num [demoStrat, mkStrat, benchLookup, cleanRows, demoCSV]
  have ho : demoScored.base.outperf = some 10 := by
    norm_num [demoScored, demoStrat, mkStrat, benchLookup, cleanRows, demoCSV]
  have hdd : demoScored.base.maxDD = some (-8) := by
    norm_num [demoScored, demoStrat, mkStrat, benchLookup, cleanRows, demoCSV]
  exact (composite_filter_score demoCSV).2.2.2.1 demoScored hmem 10 (-8) ho hdd

theorem scoreGe_of_keyRel {α : Type} (k : α → Option ℚ) (p q : ℕ × α)
    (h : keyRel k p q) : scoreGe (k p.2) (k q.2) := by
  unfold keyRel keyRelB at h
  rcases hp : k p.2 with _ | a <;> rcases hq : k q.2 with _ | b
  case none.none => exact trivial
  case none.some =>
    simp only [hp, hq] at h
    exact absurd h (by simp)
  case some.none => exact trivial
  case some.some =>
    simp only [hp, hq] at h
    show b ≤ a
    simp only [Bool.or_eq_true, Bool.and_eq_true, decide_eq_true_eq] at h
    rcases h with h | ⟨h, _⟩
    · exact le_of_lt h
    · exact le_of_eq h.symm

/-- **C10.** The detailed CSV export contains every row passing the composite
filter (as a permutation of the filtered row list, not only the top 25), its
`Rank` column is numbered consecutively from 1, the ranking order is
non-increasing in the stored `Composite_Score` (missing scores last), and the
25-row truncation produces only the rendered HTML table, which is exactly the
first 25 rows of the CSV. -/
theorem detailed_csv_ranking (rows : List MetricsRow) :
    List.Perm ((detailedCSV rows).map (fun p => p.row)) (scoredRows rows) ∧
    ((scoredRows rows).map (fun p => p.base) = top_strategies rows) ∧
    ((detailedCSV rows).map (fun p => p.rank) =
      List.range' 1 (top_strategies rows).length) ∧
    ((detailedCSV rows).map (fun p => p.row.score)).Pairwise scoreGe ∧
    topDisplay rows = (detailedCSV rows).take 25 := by
  have hrow : (detailedCSV rows).map (fun p => p.row) = sortedScored rows := by
    unfold detailedCSV
    rw [List.map_map]
    exact List.enum_map_snd _
  have hlen : (sortedScored rows).length = (top_strategies rows).length := by
    have h := (sortDescBy_perm (fun s : ScoredRow => s.score) (scoredRows rows)).length_eq
    unfold sortedScored
    rw [h]
    unfold scoredRows
    rw [List.length_map]
  refine ⟨?_, ?_, ?_, ?_, rfl⟩
  · rw [hrow]
    exact sortDescBy_perm _ _
  · unfold scoredRows
    rw [List.map_map]
    exact List.map_id _
  · unfold detailedCSV
    rw [List.map_map]
    calc (sortedScored rows).enum.map
          ((fun p : RankedRow => p.rank) ∘ (fun p : ℕ × ScoredRow => (⟨p.2, p.1 + 1⟩ : RankedRow)))
        = ((sortedScored rows).enum.map Prod.fst).map (fun x => x + 1) := by
          rw [List.map_map]
          rfl
      _ = (List.range (sortedScored rows).length).map (fun x => x + 1) := by
          rw [List.enum_map_fst]
      _ = (List.range (sortedScored rows).length).map (fun x => 1 + x) := by
          simp [Nat.add_comm]
      _ = List.range' 1 (sortedScored rows).length := (List.range'_eq_map_range 1 _).symm
      _ = List.range' 1 (top_strategies rows).length := by rw [hlen]
  · have hmm : (detailedCSV rows).map (fun p => p.row.score) =
        ((detailedCSV rows).map (fun p => p.row)).map (fun r => r.score) := by
      rw [List.map_map]
      rfl
    rw [hmm, hrow]
    unfold sortedScored sortDescBy
    rw [List.map_map, List.pairwise_map]
    have hs := sortedEnum_sorted (fun s : ScoredRow => s.score) (scoredRows rows)
    exact List.Pairwise.imp
      (fun h => scoreGe_of_keyRel (fun s : ScoredRow => s.score) _ _ h) hs

/-- Witness for C10: on the demo CSV the exported ranks are consecutive from
1. -/
theorem detailed_csv_ranking_witness :
    (detailedCSV demoCSV).map (fun p => p.rank) =
      List.range' 1 (top_strategies demoCSV).length :=
  (detailed_csv_ranking demoCSV).2.2.1

theorem keyRel_strict {α : Type} (g : α → ℚ) (p q : ℕ × α)
    (h : keyRel (fun a => some (g a)) p q) (hne : p.1 ≠ q.1) :
    g q.2 < g p.2 ∨ (g p.2 = g q.2 ∧ p.1 < q.1) := by
  unfold keyRel keyRelB at h
  simp only [Bool.or_eq_true, Bool.and_eq_true, decide_eq_true_eq] at h
  rcases h with h | ⟨he, hle⟩
  · exact Or.inl h
  · exact Or.inr ⟨he, lt_of_le_of_ne hle hne⟩

/-- **C6.** The pure outperformer ranking contains only non-Benchmark rows
whose total return beats their ticker's benchmark return, holds
`min 20 n` rows where `n` is the number of qualifying rows (all of them, with
no padding, when fewer than 20 qualify), is monotonically non-increasing in
total return, every dropped qualifying row's return is at most every kept
row's return (it holds the 20 largest), and ties are broken by input order:
along the ranked positions either the return strictly decreases or the input
position strictly increases. -/
theorem outperformer_ranking (rows : List MetricsRow) :
    (∀ r ∈ top20 rows,
      r.strategy ≠ "Benchmark" ∧ benchReturn (cleanRows rows) r.ticker < r.ret) ∧
    (top20 rows).length = min 20 (outperformers rows).length ∧
    ((top20 rows).map (fun r => r.ret)).Pairwise (fun a b => b ≤ a) ∧
    (∀ p ∈ top20enum rows, ∀ q ∈ (outSortedEnum rows).drop 20, q.2.ret ≤ p.2.ret) ∧
    (top20enum rows).Pairwise
      (fun p q => q.2.ret < p.2.ret ∨ (p.2.ret = q.2.ret ∧ p.1 < q.1)) ∧
    top20 rows = (top20enum rows).map Prod.snd ∧
    List.Perm (top20enum rows ++ (outSortedEnum rows).drop 20)
      (outperformers rows).enum ∧
    ((outperformers rows).length ≤ 20 →
      List.Perm (top20 rows) (outperformers rows)) := by
  have hperm : List.Perm (outSortedEnum rows) (outperformers rows).enum :=
    sortedEnum_perm _ _
  have hsort : (outSortedEnum rows).Pairwise (keyRel (fun r : CleanRow => some r.ret)) :=
    sortedEnum_sorted _ _
  have htake : (top20enum rows).Pairwise (keyRel (fun r : CleanRow => some r.ret)) :=
    hsort.sublist (List.take_sublist 20 _)
  have hlen2 : (outSortedEnum rows).length = (outperformers rows).length := by
    rw [hperm.length_eq, List.enum_length]
  refine ⟨?_, ?_, ?_, ?_, ?_, rfl, ?_, ?_⟩
  · intro r hr
    obtain ⟨p, hp, rfl⟩ := List.mem_map.mp hr
    have hp2 : p ∈ outSortedEnum rows := List.take_subset 20 _ hp
    have hp3 : p ∈ (outperformers rows).enum := hperm.mem_iff.mp hp2
    have hp4 : p.2 ∈ outperformers rows := by
      have hm : p.2 ∈ (outperformers rows).enum.map Prod.snd :=
        List.mem_map_of_mem Prod.snd hp3
      rwa [List.enum_map_snd] at hm
    unfold outperformers at hp4
    rw [List.mem_filter] at hp4
    have hpred := hp4.2
    simp only [beatMarketB, Bool.and_eq_true, bne_iff_ne, ne_eq,
      decide_eq_true_eq] at hpred
    exact ⟨hpred.1, hpred.2.2⟩
  · rw [top20, nlargestBy, List.length_map, List.length_take]
    rw [show sortedEnum (fun r : CleanRow => some r.ret) (outperformers rows) =
      outSortedEnum rows from rfl, hlen2]
  · rw [top20, nlargestBy, List.map_map, List.pairwise_map]
    exact htake.imp fun {p q} h =>
      (scoreGe_of_keyRel (fun r : CleanRow => some r.ret) p q h : q.2.ret ≤ p.2.ret)
  · intro p hp q hq
    have hcross := (List.pairwise_append.mp
      (by rw [List.take_append_drop 20 (outSortedEnum rows)]; exact hsort)).2.2
    exact (scoreGe_of_keyRel (fun r : CleanRow => some r.ret) p q
      (hcross p hp q hq) : q.2.ret ≤ p.2.ret)
  · have hnd : (outSortedEnum rows).Pairwise (fun p q : ℕ × CleanRow => p.1 ≠ q.1) := by
      have h := sortedEnum_nodup_fst (fun r : CleanRow => some r.ret) (outperformers rows)
      rw [List.Nodup, List.pairwise_map] at h
      exact h
    have hand := List.Pairwise.and hsort hnd
    have htand := hand.sublist (List.take_sublist 20 _)
    exact htand.imp fun {p q} h => keyRel_strict (fun r : CleanRow => r.ret) p q h.1 h.2
  · rw [show top20enum rows ++ (outSortedEnum rows).drop 20 =
      (outSortedEnum rows).take 20 ++ (outSortedEnum rows).drop 20 from rfl,
      List.take_append_drop]
    exact hperm
  · intro hle
    have hall : (outSortedEnum rows).take 20 = outSortedEnum rows :=
      List.take_of_length_le (by rw [hlen2]; exact hle)
    rw [top20, nlargestBy,
      show sortedEnum (fun r : CleanRow => some r.ret) (outperformers rows) =
        outSortedEnum rows from rfl, hall]
    have hm := hperm.map Prod.snd
    rwa [List.enum_map_snd] at hm

/-- Witness for C6: on the demo CSV there is exactly one qualifying row, so
the top-20 view is a permutation of (here: equal to) the full outperformer
list. -/
theorem outperformer_ranking_witness :
    (outperformers demoCSV).length ≤ 20 ∧
    List.Perm (top20 demoCSV) (outperformers demoCSV) :=
  ⟨by decide, (outperformer_ranking demoCSV).2.2.2.2.2.2.2 (by decide)⟩

end AITester
